import Mathlib

/-!
Verification development for the Brainfuck interpreter in
`brainfuck-interpreter.py` (repository BaseMax/brainfuck-interpreter-python).

The Python source is shallowly embedded as executable Lean definitions:

* the source string is a `List Char`, indexed positionally with `List.getD`
  exactly as the Python code indexes `code[index]`;
* the recursive parser `parse_brainfuck` carries an explicit fuel argument
  (Python recursion has no such argument; every actual run of the Python
  parser corresponds to a sufficiently large fuel, and fuel exhaustion is the
  distinguished result `BrainfuckParseError.outOfFuel`);
* the two inner `while` loops of the parser that merge runs of symbols are
  the helpers `mergeSigned` and `mergeCount`; their step budget is
  `e - index`, which bounds the Python loops exactly;
* the execution engine (`execute_instruction` / `brainfuck_execute`) also
  carries fuel, since a Brainfuck loop may run forever; divergence of the
  Python engine corresponds to every fuel yielding `Outcome.timeout`;
* the mutable `BrainfuckExecutionContext` is passed and returned explicitly;
  a raised `BrainfuckRuntimeError` becomes an `Outcome.err` result paired
  with the context exactly as it was at the moment of failure (in Python the
  caller keeps the mutated context object when the exception propagates);
* the handlers are external collaborators: the output handler is modelled as
  a pure sink accumulating the emitted byte values in `outputs`, and the
  input handler as a predetermined stream `inputH : Nat → Option Char`
  consumed through the call counter `inputCalls` (`none` models the empty
  string Python uses for end of stream);
* indexing `tape[tape_index]` uses Python list-index semantics: an index
  `i` with `-len ≤ i < 0` addresses `len + i`, and any other out-of-range
  index raises `IndexError`, modelled as `RTError.indexError`.
-/

/-! ### Constants (source lines 27-37) -/

def TAPE_SIZE : Nat := 30000

def TOKEN_PLUS : Char := '+'

def TOKEN_MINUS : Char := '-'

def TOKEN_NEXT : Char := '>'

def TOKEN_PREVIOUS : Char := '<'

def TOKEN_OUTPUT : Char := '.'

def TOKEN_INPUT : Char := ','

def TOKEN_LOOP_START : Char := '['

def TOKEN_LOOP_END : Char := ']'

def TOKEN_BREAK : Char := '#'

/-! ### Data classes (source lines 53-91) -/

/-- One Brainfuck instruction, mirroring the Python class
`BrainfuckInstruction` with fields `token`, `difference` and `loop`
(the latter is `None` for every non-loop instruction). -/
inductive BrainfuckInstruction : Type where
  | mk (token : Char) (difference : Int)
      (loop : Option (List BrainfuckInstruction))

def BrainfuckInstruction.token : BrainfuckInstruction → Char
  | .mk t _ _ => t

def BrainfuckInstruction.difference : BrainfuckInstruction → Int
  | .mk _ d _ => d

def BrainfuckInstruction.loop :
    BrainfuckInstruction → Option (List BrainfuckInstruction)
  | .mk _ _ l => l

/-- The mutable execution context, mirroring `BrainfuckExecutionContext`.
`inputCalls` and `outputs` replace the Python handler closures: `outputs`
accumulates every byte passed to the output handler, and `inputCalls` counts
the calls made to the input handler so far. -/
structure BrainfuckExecutionContext : Type where
  tape : List Nat
  tape_index : Int
  tape_size : Nat
  should_stop : Bool
  inputCalls : Nat
  outputs : List Nat
deriving DecidableEq

/-- A fresh context as built by `BrainfuckExecutionContext.__init__`
(source lines 85-91): an all-zero tape, pointer 0, stop flag cleared. -/
def freshContext (tape_size : Nat) : BrainfuckExecutionContext :=
  { tape := List.replicate tape_size 0
    tape_index := 0
    tape_size := tape_size
    should_stop := false
    inputCalls := 0
    outputs := [] }

/-! ### Parse errors (source lines 46-48, 147, 170) -/

/-- The two `BrainfuckParseError` raises of the source, plus the fuel
exhaustion marker of the embedding. `unexpectedLoopEnd pos` is the raise at
line 147 with the reported position, `unmatchedLoopStart` the raise at
line 170. -/
inductive BrainfuckParseError : Type where
  | unexpectedLoopEnd (pos : Nat)
  | unmatchedLoopStart
  | outOfFuel
deriving DecidableEq

/-! ### Parser (source lines 113-187) -/

/-- The inner `while` loop at source lines 151-153 (for `+`/`-`) and 157-159
(for `>`/`<`): starting from accumulator `diff` at position `index`, consume
characters while `index < e` and `code[index] ∈ {a, b}`, adding 1 when the
consumed character equals the run leader `c` and subtracting 1 otherwise.
`k` is the remaining step budget; the caller passes `e - index`, which
bounds the Python loop exactly, so the `k = 0` branch is reached only when
`index ≥ e` and the loop would not run. -/
def mergeSigned (code : List Char) (e : Nat) (a b c : Char) :
    Nat → Nat → Int → Int × Nat
  | 0, index, diff => (diff, index)
  | k + 1, index, diff =>
    if index < e ∧ (code.getD index ' ' = a ∨ code.getD index ' ' = b) then
      mergeSigned code e a b c k (index + 1)
        (if code.getD index ' ' = c then diff + 1 else diff - 1)
    else (diff, index)

/-- The inner `while` loop at source lines 163-165 (for `.` and `,`):
consume repetitions of exactly the character `c`, counting them. -/
def mergeCount (code : List Char) (e : Nat) (c : Char) :
    Nat → Nat → Int → Int × Nat
  | 0, index, diff => (diff, index)
  | k + 1, index, diff =>
    if index < e ∧ code.getD index ' ' = c then
      mergeCount code e c k (index + 1) (diff + 1)
    else (diff, index)

/-- `parse_brainfuck(code, index, end, inside_loop)` (source lines 113-171),
with an explicit fuel argument. The Python `while index < end` loop with an
accumulating `instructions` list is rendered as structural recursion that
prepends the instruction produced by the current iteration to the result of
continuing the walk; reaching `]` inside a loop returns the (empty) rest of
the accumulation together with the index just past the `]`. -/
def parse_brainfuck :
    Nat → List Char → Nat → Nat → Bool →
      Except BrainfuckParseError (List BrainfuckInstruction × Nat)
  | 0, _, _, _, _ => .error .outOfFuel
  | fuel + 1, code, index, e, inside_loop =>
    if index < e then
      let c := code.getD index ' '
      let index1 := index + 1
      if ¬(c = TOKEN_PLUS ∨ c = TOKEN_MINUS ∨ c = TOKEN_NEXT ∨
            c = TOKEN_PREVIOUS ∨ c = TOKEN_OUTPUT ∨ c = TOKEN_INPUT ∨
            c = TOKEN_LOOP_START ∨ c = TOKEN_LOOP_END ∨ c = TOKEN_BREAK) then
        parse_brainfuck fuel code index1 e inside_loop
      else if c = TOKEN_LOOP_START then
        match parse_brainfuck fuel code index1 e true with
        | .error m => .error m
        | .ok (loop_instructions, index2) =>
          match parse_brainfuck fuel code index2 e inside_loop with
          | .error m => .error m
          | .ok (rest, index3) =>
            .ok (.mk TOKEN_LOOP_START 1 (some loop_instructions) :: rest,
              index3)
      else if c = TOKEN_LOOP_END then
        if inside_loop then .ok ([], index1)
        else .error (.unexpectedLoopEnd index)
      else if c = TOKEN_PLUS ∨ c = TOKEN_MINUS then
        let r := mergeSigned code e TOKEN_PLUS TOKEN_MINUS c
          (e - index1) index1 1
        match parse_brainfuck fuel code r.2 e inside_loop with
        | .error m => .error m
        | .ok (rest, index3) => .ok (.mk c r.1 none :: rest, index3)
      else if c = TOKEN_NEXT ∨ c = TOKEN_PREVIOUS then
        let r := mergeSigned code e TOKEN_NEXT TOKEN_PREVIOUS c
          (e - index1) index1 1
        match parse_brainfuck fuel code r.2 e inside_loop with
        | .error m => .error m
        | .ok (rest, index3) => .ok (.mk c r.1 none :: rest, index3)
      else if c = TOKEN_OUTPUT ∨ c = TOKEN_INPUT then
        let r := mergeCount code e c (e - index1) index1 1
        match parse_brainfuck fuel code r.2 e inside_loop with
        | .error m => .error m
        | .ok (rest, index3) => .ok (.mk c r.1 none :: rest, index3)
      else
        match parse_brainfuck fuel code index1 e inside_loop with
        | .error m => .error m
        | .ok (rest, index3) => .ok (.mk TOKEN_BREAK 1 none :: rest, index3)
    else
      if inside_loop then .error .unmatchedLoopStart
      else .ok ([], index)

/-- `parse_string(code)` (source lines 173-187): parse the whole string with
the default arguments `index = 0`, `end = len(code)`, `inside_loop = False`
and return only the instruction list. -/
def parse_string (fuel : Nat) (code : List Char) :
    Except BrainfuckParseError (List BrainfuckInstruction) :=
  match parse_brainfuck fuel code 0 code.length false with
  | .error m => .error m
  | .ok (instructions, _) => .ok instructions

/-- Signed fold of a run with leader `c`: the value of the parser's `diff`
accumulator after the whole tail `tl` of the run has been consumed. -/
def runFold (c : Char) (tl : List Char) : Int :=
  tl.foldl (fun d x => if x = c then d + 1 else d - 1) 1

/-! ### Runtime errors and outcomes (source lines 42-44, 215, 221) -/

/-- The runtime failures: the two `BrainfuckRuntimeError` raises of
`execute_instruction` (tape overrun at line 215 with its reported data,
tape underrun at line 221), plus the `IndexError` Python itself would raise
on a tape access with an index outside `[-len, len)`. -/
inductive RTError : Type where
  | tapeOverrun (attempted : Int) (size : Nat)
  | tapeUnderrun
  | indexError
deriving DecidableEq

/-- Result tag of one engine call: normal return, a propagating exception,
or fuel exhaustion (the modelling artefact standing for a still-running
Python engine). -/
inductive Outcome : Type where
  | ok
  | err (e : RTError)
  | timeout
deriving DecidableEq

/-! ### Tape access with Python list-index semantics -/

/-- Resolve a Python list index against a list of length `n`: indices in
`[0, n)` are themselves, indices in `[-n, 0)` address from the end, and
anything else raises `IndexError` (`none`). -/
def pyIdx (n : Nat) (i : Int) : Option Nat :=
  if 0 ≤ i ∧ i < (n : Int) then some i.toNat
  else if -(n : Int) ≤ i ∧ i < 0 then some (i + n).toNat
  else none

/-- Read `context.tape[context.tape_index]`. -/
def tapeGet (ctx : BrainfuckExecutionContext) : Option Nat :=
  match pyIdx ctx.tape.length ctx.tape_index with
  | none => none
  | some k => some (ctx.tape.getD k 0)

/-- Write `context.tape[context.tape_index] = v`. -/
def tapeSetAt (ctx : BrainfuckExecutionContext) (v : Nat) :
    Option BrainfuckExecutionContext :=
  match pyIdx ctx.tape.length ctx.tape_index with
  | none => none
  | some k => some { ctx with tape := ctx.tape.set k v }

/-- Read-modify-write `context.tape[context.tape_index] = f(...)`, the shape
of the `+` and `-` branches of `execute_instruction`. -/
def tapeModify (ctx : BrainfuckExecutionContext) (f : Nat → Nat) :
    Option BrainfuckExecutionContext :=
  match pyIdx ctx.tape.length ctx.tape_index with
  | none => none
  | some k =>
    some { ctx with tape := ctx.tape.set k (f (ctx.tape.getD k 0)) }

/-! ### Handler loops (source lines 224-232) -/

/-- The `for _ in range(diff)` loop of the `.` branch (source lines
225-226): re-read the current cell on every iteration and pass it to the
output handler, modelled as appending to `outputs`. -/
def runOutput : Nat → BrainfuckExecutionContext →
    Option BrainfuckExecutionContext
  | 0, ctx => some ctx
  | k + 1, ctx =>
    match tapeGet ctx with
    | none => none
    | some v => runOutput k { ctx with outputs := ctx.outputs ++ [v] }

/-- The `for _ in range(diff)` loop of the `,` branch (source lines
230-232): call the input handler, then store 0 on end of stream and the
ordinal value of the returned character otherwise. -/
def runInput (inputH : Nat → Option Char) :
    Nat → BrainfuckExecutionContext → Option BrainfuckExecutionContext
  | 0, ctx => some ctx
  | k + 1, ctx =>
    match tapeSetAt { ctx with inputCalls := ctx.inputCalls + 1 }
        (match inputH ctx.inputCalls with
          | none => 0
          | some c => c.toNat) with
    | none => none
    | some ctx2 => runInput inputH k ctx2

/-! ### Execution engine (source lines 192-261) -/

mutual

/-- `execute_instruction(instr, context)` (source lines 192-248) with fuel.
Each branch mirrors the corresponding `if token == ...` branch; the `while`
loop of the `[` branch (lines 234-236) is rendered as: if the current cell
is non-zero, run the body once with `brainfuck_execute` and re-test by
recursing on the same instruction. The `#` branch only prints (lines
238-246) and the final `else` is `pass`, so both leave the context
unchanged. -/
def execute_instruction (inputH : Nat → Option Char) :
    Nat → BrainfuckInstruction → BrainfuckExecutionContext →
      Outcome × BrainfuckExecutionContext
  | 0, _, ctx => (.timeout, ctx)
  | fuel + 1, instr, ctx =>
    let token := instr.token
    let diff := instr.difference
    if token = TOKEN_PLUS then
      match tapeModify ctx (fun v => (((v : Int) + diff) % 256).toNat) with
      | none => (.err .indexError, ctx)
      | some ctx1 => (.ok, ctx1)
    else if token = TOKEN_MINUS then
      match tapeModify ctx (fun v => (((v : Int) - diff) % 256).toNat) with
      | none => (.err .indexError, ctx)
      | some ctx1 => (.ok, ctx1)
    else if token = TOKEN_NEXT then
      let new_index := ctx.tape_index + diff
      if new_index ≥ (ctx.tape_size : Int) then
        (.err (.tapeOverrun new_index ctx.tape_size), ctx)
      else (.ok, { ctx with tape_index := new_index })
    else if token = TOKEN_PREVIOUS then
      let new_index := ctx.tape_index - diff
      if new_index < 0 then (.err .tapeUnderrun, ctx)
      else (.ok, { ctx with tape_index := new_index })
    else if token = TOKEN_OUTPUT then
      match runOutput diff.toNat ctx with
      | none => (.err .indexError, ctx)
      | some ctx1 => (.ok, ctx1)
    else if token = TOKEN_INPUT then
      match runInput inputH diff.toNat ctx with
      | none => (.err .indexError, ctx)
      | some ctx1 => (.ok, ctx1)
    else if token = TOKEN_LOOP_START then
      match tapeGet ctx with
      | none => (.err .indexError, ctx)
      | some v =>
        if v ≠ 0 then
          match brainfuck_execute inputH fuel (instr.loop.getD []) ctx with
          | (.ok, ctx1) => execute_instruction inputH fuel instr ctx1
          | other => other
        else (.ok, ctx)
    else (.ok, ctx)

/-- `brainfuck_execute(instructions, context)` (source lines 250-261) with
fuel: walk the list and, before each instruction, break successfully when
`should_stop` is set. -/
def brainfuck_execute (inputH : Nat → Option Char) :
    Nat → List BrainfuckInstruction → BrainfuckExecutionContext →
      Outcome × BrainfuckExecutionContext
  | _, [], ctx => (.ok, ctx)
  | 0, _ :: _, ctx =>
    if ctx.should_stop then (.ok, ctx) else (.timeout, ctx)
  | fuel + 1, instr :: rest, ctx =>
    if ctx.should_stop then (.ok, ctx)
    else
      match execute_instruction inputH fuel instr ctx with
      | (.ok, ctx1) => brainfuck_execute inputH fuel rest ctx1
      | other => other

end

/-- An input handler that always reports end of stream, matching a closed
standard input; used by concrete executions that never read input. -/
def noInput : Nat → Option Char := fun _ => none

/-- The parse of the diagnostic loop program used by the specification. -/
def plusLoopProg : List BrainfuckInstruction :=
  [.mk TOKEN_PLUS 1 none,
    .mk TOKEN_LOOP_START 1 (some [.mk TOKEN_NEXT 1 none,
      .mk TOKEN_PLUS 1 none, .mk TOKEN_PREVIOUS 1 none,
      .mk TOKEN_MINUS 1 none])]

/-- A tape whose cells all lie in the byte range. -/
def tapeBounded (ctx : BrainfuckExecutionContext) : Prop :=
  ∀ v ∈ ctx.tape, v ≤ 255

/-! ### Branch unfolding equations for the engine

Each lemma restates one dispatch branch of `execute_instruction` (or one
step of `brainfuck_execute`); all hold by definitional unfolding. -/

theorem exec_plus_unfold (inputH : Nat → Option Char) (fuel : Nat) (m : Int)
    (lp : Option (List BrainfuckInstruction))
    (ctx : BrainfuckExecutionContext) :
    execute_instruction inputH (fuel + 1) (.mk TOKEN_PLUS m lp) ctx =
      match tapeModify ctx (fun v => (((v : Int) + m) % 256).toNat) with
      | none => (.err .indexError, ctx)
      | some ctx1 => (.ok, ctx1) := rfl

theorem exec_minus_unfold (inputH : Nat → Option Char) (fuel : Nat) (m : Int)
    (lp : Option (List BrainfuckInstruction))
    (ctx : BrainfuckExecutionContext) :
    execute_instruction inputH (fuel + 1) (.mk TOKEN_MINUS m lp) ctx =
      match tapeModify ctx (fun v => (((v : Int) - m) % 256).toNat) with
      | none => (.err .indexError, ctx)
      | some ctx1 => (.ok, ctx1) := rfl

theorem exec_next_unfold (inputH : Nat → Option Char) (fuel : Nat) (m : Int)
    (lp : Option (List BrainfuckInstruction))
    (ctx : BrainfuckExecutionContext) :
    execute_instruction inputH (fuel + 1) (.mk TOKEN_NEXT m lp) ctx =
      if ctx.tape_index + m ≥ (ctx.tape_size : Int) then
        (.err (.tapeOverrun (ctx.tape_index + m) ctx.tape_size), ctx)
      else (.ok, { ctx with tape_index := ctx.tape_index + m }) := rfl

theorem exec_prev_unfold (inputH : Nat → Option Char) (fuel : Nat) (m : Int)
    (lp : Option (List BrainfuckInstruction))
    (ctx : BrainfuckExecutionContext) :
    execute_instruction inputH (fuel + 1) (.mk TOKEN_PREVIOUS m lp) ctx =
      if ctx.tape_index - m < 0 then (.err .tapeUnderrun, ctx)
      else (.ok, { ctx with tape_index := ctx.tape_index - m }) := rfl

theorem exec_output_unfold (inputH : Nat → Option Char) (fuel : Nat) (m : Int)
    (lp : Option (List BrainfuckInstruction))
    (ctx : BrainfuckExecutionContext) :
    execute_instruction inputH (fuel + 1) (.mk TOKEN_OUTPUT m lp) ctx =
      match runOutput m.toNat ctx with
      | none => (.err .indexError, ctx)
      | some ctx1 => (.ok, ctx1) := rfl

theorem exec_input_unfold (inputH : Nat → Option Char) (fuel : Nat) (m : Int)
    (lp : Option (List BrainfuckInstruction))
    (ctx : BrainfuckExecutionContext) :
    execute_instruction inputH (fuel + 1) (.mk TOKEN_INPUT m lp) ctx =
      match runInput inputH m.toNat ctx with
      | none => (.err .indexError, ctx)
      | some ctx1 => (.ok, ctx1) := rfl

theorem exec_loop_unfold (inputH : Nat → Option Char) (fuel : Nat) (d : Int)
    (lp : Option (List BrainfuckInstruction))
    (ctx : BrainfuckExecutionContext) :
    execute_instruction inputH (fuel + 1) (.mk TOKEN_LOOP_START d lp) ctx =
      match tapeGet ctx with
      | none => (.err .indexError, ctx)
      | some v =>
        if v ≠ 0 then
          match brainfuck_execute inputH fuel (lp.getD []) ctx with
          | (.ok, ctx1) =>
            execute_instruction inputH fuel (.mk TOKEN_LOOP_START d lp) ctx1
          | other => other
        else (.ok, ctx) := rfl

theorem exec_zero_unfold (inputH : Nat → Option Char)
    (instr : BrainfuckInstruction) (ctx : BrainfuckExecutionContext) :
    execute_instruction inputH 0 instr ctx = (.timeout, ctx) := rfl

theorem brainfuck_execute_nil (inputH : Nat → Option Char) (fuel : Nat)
    (ctx : BrainfuckExecutionContext) :
    brainfuck_execute inputH fuel [] ctx = (.ok, ctx) := by
  cases fuel <;> rfl

theorem brainfuck_execute_cons (inputH : Nat → Option Char) (fuel : Nat)
    (instr : BrainfuckInstruction) (rest : List BrainfuckInstruction)
    (ctx : BrainfuckExecutionContext) :
    brainfuck_execute inputH (fuel + 1) (instr :: rest) ctx =
      if ctx.should_stop then (.ok, ctx)
      else
        match execute_instruction inputH fuel instr ctx with
        | (.ok, ctx1) => brainfuck_execute inputH fuel rest ctx1
        | other => other := rfl

/-- Shared helper: a context whose stop flag is set makes `brainfuck_execute`
return success immediately, whatever the instructions and fuel. -/
theorem brainfuck_execute_of_should_stop (inputH : Nat → Option Char)
    (fuel : Nat) (instrs : List BrainfuckInstruction)
    (ctx : BrainfuckExecutionContext) (h : ctx.should_stop = true) :
    brainfuck_execute inputH fuel instrs ctx = (.ok, ctx) := by
  cases instrs with
  | nil => exact brainfuck_execute_nil ..
  | cons i rest => cases fuel <;> simp [brainfuck_execute, h]

/-- C7: with the should-stop flag set before the call, `brainfuck_execute`
runs no instruction, leaves the context (tape and pointer included)
unchanged, and returns success — for every instruction list, every fuel and
every handler; the flag is (re)checked before each top-level instruction, so
the early halt is a success, not an error. -/
theorem should_stop_halts_execution (inputH : Nat → Option Char) (fuel : Nat)
    (instrs : List BrainfuckInstruction) (ctx : BrainfuckExecutionContext)
    (h : ctx.should_stop = true) :
    brainfuck_execute inputH fuel instrs ctx = (.ok, ctx) :=
  brainfuck_execute_of_should_stop inputH fuel instrs ctx h

/-- Witness for C7: a concrete stopped context is returned unchanged. -/
theorem should_stop_halts_execution_witness :
    brainfuck_execute noInput 5 [.mk '+' 1 none]
      { freshContext 3 with should_stop := true } =
    (.ok, { freshContext 3 with should_stop := true }) :=
  should_stop_halts_execution noInput 5 [.mk '+' 1 none]
    { freshContext 3 with should_stop := true } rfl

/-- C10: a `LoopStart` instruction executed while the stop flag is set and
the current cell is non-zero never terminates: every body pass runs no
instruction (the flag halts the walk at once), the cell stays non-zero, and
the loop condition — which never consults the flag — is re-tested forever.
In the fuel embedding: every fuel amount times out with the context
unchanged. -/
theorem loop_with_stop_flag_diverges (inputH : Nat → Option Char) (d : Int)
    (lp : Option (List BrainfuckInstruction))
    (ctx : BrainfuckExecutionContext) (v : Nat)
    (hstop : ctx.should_stop = true) (hget : tapeGet ctx = some v)
    (hv : v ≠ 0) :
    ∀ fuel, execute_instruction inputH fuel (.mk TOKEN_LOOP_START d lp) ctx =
      (.timeout, ctx) := by
  intro fuel
  induction fuel with
  | zero => rfl
  | succ f ih =>
    rw [exec_loop_unfold, hget]
    simp only [hv, if_true, ne_eq, not_false_eq_true, if_pos]
    rw [brainfuck_execute_of_should_stop inputH f (lp.getD []) ctx hstop]
    exact ih

/-- Witness for C10: a concrete stuck loop times out at a sample fuel. -/
theorem loop_with_stop_flag_diverges_witness :
    execute_instruction noInput 7 (.mk TOKEN_LOOP_START 1 (some []))
      { tape := [1], tape_index := 0, tape_size := 1, should_stop := true,
        inputCalls := 0, outputs := [] } =
    (.timeout,
      { tape := [1], tape_index := 0, tape_size := 1, should_stop := true,
        inputCalls := 0, outputs := [] }) :=
  loop_with_stop_flag_diverges noInput 1 (some [])
    { tape := [1], tape_index := 0, tape_size := 1, should_stop := true,
      inputCalls := 0, outputs := [] } 1 rfl rfl (by decide) 7

/-- C4: with a valid pointer (resolved cell `k`) holding value `v ≤ 255`,
`IncrementCell(m)` rewrites the cell to `(v + m) % 256` and
`DecrementCell(m)` to `(v - m) % 256`, Python's `%` being the non-negative
modulo; no other field of the context changes. The closed conjuncts check
the two wraparound edge cases `255 + 1 → 0` and `0 - 1 → 255`. -/
theorem incr_decr_wraparound (inputH : Nat → Option Char) (fuel : Nat)
    (m : Int) (ctx : BrainfuckExecutionContext) (k v : Nat)
    (hk : pyIdx ctx.tape.length ctx.tape_index = some k)
    (hv : ctx.tape.getD k 0 = v) (hv255 : v ≤ 255) :
    (execute_instruction inputH (fuel + 1) (.mk TOKEN_PLUS m none) ctx =
      (.ok, { ctx with
        tape := ctx.tape.set k (((v : Int) + m) % 256).toNat })) ∧
    (execute_instruction inputH (fuel + 1) (.mk TOKEN_MINUS m none) ctx =
      (.ok, { ctx with
        tape := ctx.tape.set k (((v : Int) - m) % 256).toNat })) ∧
    (0 ≤ ((v : Int) + m) % 256 ∧ ((v : Int) + m) % 256 < 256) ∧
    (0 ≤ ((v : Int) - m) % 256 ∧ ((v : Int) - m) % 256 < 256) ∧
    execute_instruction noInput 1 (.mk TOKEN_PLUS 1 none)
        { tape := [255], tape_index := 0, tape_size := 1,
          should_stop := false, inputCalls := 0, outputs := [] } =
      (.ok, { tape := [0], tape_index := 0, tape_size := 1,
              should_stop := false, inputCalls := 0, outputs := [] }) ∧
    execute_instruction noInput 1 (.mk TOKEN_MINUS 1 none)
        { tape := [0], tape_index := 0, tape_size := 1,
          should_stop := false, inputCalls := 0, outputs := [] } =
      (.ok, { tape := [255], tape_index := 0, tape_size := 1,
              should_stop := false, inputCalls := 0, outputs := [] }) := by
  refine ⟨?_, ?_, ⟨?_, ?_⟩, ⟨?_, ?_⟩, rfl, rfl⟩
  · rw [exec_plus_unfold]
    simp only [tapeModify, hk, hv]
  · rw [exec_minus_unfold]
    simp only [tapeModify, hk, hv]
  · omega
  · omega
  · omega
  · omega

/-- Witness for C4 at cell value 200, magnitude 100 on a 1-cell tape. -/
theorem incr_decr_wraparound_witness :
    (execute_instruction noInput 1 (.mk TOKEN_PLUS 100 none)
        { tape := [200], tape_index := 0, tape_size := 1,
          should_stop := false, inputCalls := 0, outputs := [] } =
      (.ok, { tape := [(200 : Nat)].set 0 (((200 : Int) + 100) % 256).toNat,
              tape_index := 0, tape_size := 1, should_stop := false,
              inputCalls := 0, outputs := [] })) ∧
    (execute_instruction noInput 1 (.mk TOKEN_MINUS 100 none)
        { tape := [200], tape_index := 0, tape_size := 1,
          should_stop := false, inputCalls := 0, outputs := [] } =
      (.ok, { tape := [(200 : Nat)].set 0 (((200 : Int) - 100) % 256).toNat,
              tape_index := 0, tape_size := 1, should_stop := false,
              inputCalls := 0, outputs := [] })) ∧
    (0 ≤ ((200 : Int) + 100) % 256 ∧ ((200 : Int) + 100) % 256 < 256) ∧
    (0 ≤ ((200 : Int) - 100) % 256 ∧ ((200 : Int) - 100) % 256 < 256) := by
  have h := incr_decr_wraparound noInput 0 100
    { tape := [200], tape_index := 0, tape_size := 1,
      should_stop := false, inputCalls := 0, outputs := [] }
    0 200 rfl rfl (by decide)
  exact ⟨h.1, h.2.1, h.2.2.1, h.2.2.2.1⟩

/-- C9: a `>`-tagged instruction can only fail with `TapeOverrun` and a
`<`-tagged one only with `TapeUnderrun`; in particular a `>` instruction
whose (possibly negative) magnitude would take the pointer below zero —
such as the `MoveRight(-1)` parsed from the mixed run in `"><<"` — raises
nothing and leaves the pointer at the negative, out-of-range index. -/
theorem next_never_underruns (inputH : Nat → Option Char) (fuel : Nat)
    (m : Int) (ctx : BrainfuckExecutionContext) :
    (∀ er, (execute_instruction inputH (fuel + 1)
        (.mk TOKEN_NEXT m none) ctx).1 = .err er →
      er = .tapeOverrun (ctx.tape_index + m) ctx.tape_size) ∧
    (∀ er, (execute_instruction inputH (fuel + 1)
        (.mk TOKEN_PREVIOUS m none) ctx).1 = .err er →
      er = .tapeUnderrun) ∧
    (ctx.tape_index + m < 0 →
      execute_instruction inputH (fuel + 1) (.mk TOKEN_NEXT m none) ctx =
        (.ok, { ctx with tape_index := ctx.tape_index + m })) ∧
    parse_string 8 ['>', '<', '<'] = .ok [.mk TOKEN_NEXT (-1) none] := by
  refine ⟨?_, ?_, ?_, rfl⟩
  · intro er her
    rw [exec_next_unfold] at her
    by_cases h : ctx.tape_index + m ≥ (ctx.tape_size : Int)
    · rw [if_pos h] at her
      exact (Outcome.err.injEq .. ▸ her.symm).symm ▸ rfl
    · rw [if_neg h] at her
      exact absurd her (by simp)
  · intro er her
    rw [exec_prev_unfold] at her
    by_cases h : ctx.tape_index - m < 0
    · rw [if_pos h] at her
      exact (Outcome.err.injEq .. ▸ her.symm).symm ▸ rfl
    · rw [if_neg h] at her
      exact absurd her (by simp)
  · intro h
    rw [exec_next_unfold, if_neg (by omega)]

/-- Witness for C9: moving right by −3 from pointer 0 on a 2-cell tape
succeeds and parks the pointer at −3. -/
theorem next_never_underruns_witness :
    execute_instruction noInput 1 (.mk TOKEN_NEXT (-3) none)
      (freshContext 2) =
    (.ok, { freshContext 2 with tape_index := -3 }) :=
  (next_never_underruns noInput 0 (-3) (freshContext 2)).2.2.1 (by decide)

/-- C5: `MoveRight(m)` fails with `TapeOverrun` exactly when
`pointer + m ≥ tape_size` (and otherwise moves the pointer), `MoveLeft(m)`
fails with `TapeUnderrun` exactly when `pointer - m < 0`; on a size-`N`
tape the two one-step boundary moves fail; a failing instruction leaves its
context untouched and aborts the walk (the result does not depend on the
instructions after it), a succeeding one passes its mutated context on; and
the closing concrete run shows a mutation made before the fault surviving
it. -/
theorem move_bounds_and_abort :
    (∀ (inputH : Nat → Option Char) (fuel : Nat) (m : Int)
        (ctx : BrainfuckExecutionContext),
      execute_instruction inputH (fuel + 1) (.mk TOKEN_NEXT m none) ctx =
        if ctx.tape_index + m ≥ (ctx.tape_size : Int) then
          (.err (.tapeOverrun (ctx.tape_index + m) ctx.tape_size), ctx)
        else (.ok, { ctx with tape_index := ctx.tape_index + m })) ∧
    (∀ (inputH : Nat → Option Char) (fuel : Nat) (m : Int)
        (ctx : BrainfuckExecutionContext),
      execute_instruction inputH (fuel + 1) (.mk TOKEN_PREVIOUS m none) ctx =
        if ctx.tape_index - m < 0 then (.err .tapeUnderrun, ctx)
        else (.ok, { ctx with tape_index := ctx.tape_index - m })) ∧
    (∀ (N : Nat), 1 ≤ N →
      execute_instruction noInput 1 (.mk TOKEN_NEXT 1 none)
          { freshContext N with tape_index := (N : Int) - 1 } =
        (.err (.tapeOverrun N N),
          { freshContext N with tape_index := (N : Int) - 1 })) ∧
    (∀ (N : Nat),
      execute_instruction noInput 1 (.mk TOKEN_PREVIOUS 1 none)
          (freshContext N) =
        (.err .tapeUnderrun, freshContext N)) ∧
    (∀ (inputH : Nat → Option Char) (fuel : Nat)
        (i : BrainfuckInstruction) (rest : List BrainfuckInstruction)
        (ctx ctx1 : BrainfuckExecutionContext) (er : RTError),
      ctx.should_stop = false →
      execute_instruction inputH fuel i ctx = (.err er, ctx1) →
      brainfuck_execute inputH (fuel + 1) (i :: rest) ctx = (.err er, ctx1)) ∧
    (∀ (inputH : Nat → Option Char) (fuel : Nat)
        (i : BrainfuckInstruction) (rest : List BrainfuckInstruction)
        (ctx ctx1 : BrainfuckExecutionContext),
      ctx.should_stop = false →
      execute_instruction inputH fuel i ctx = (.ok, ctx1) →
      brainfuck_execute inputH (fuel + 1) (i :: rest) ctx =
        brainfuck_execute inputH fuel rest ctx1) ∧
    brainfuck_execute noInput 3 [.mk TOKEN_PLUS 1 none, .mk TOKEN_NEXT 1 none]
        (freshContext 1) =
      (.err (.tapeOverrun 1 1),
        { tape := [1], tape_index := 0, tape_size := 1,
          should_stop := false, inputCalls := 0, outputs := [] }) := by
  refine ⟨?_, ?_, ?_, ?_, ?_, ?_, rfl⟩
  · intro inputH fuel m ctx
    exact exec_next_unfold inputH fuel m none ctx
  · intro inputH fuel m ctx
    exact exec_prev_unfold inputH fuel m none ctx
  · intro N hN
    rw [exec_next_unfold, if_pos (by simp [freshContext])]
    simp [freshContext]
  · intro N
    rw [exec_prev_unfold, if_pos (by simp [freshContext])]
  · intro inputH fuel i rest ctx ctx1 er hstop hexec
    rw [brainfuck_execute_cons, if_neg (by simp [hstop]), hexec]
  · intro inputH fuel i rest ctx ctx1 hstop hexec
    rw [brainfuck_execute_cons, if_neg (by simp [hstop]), hexec]

/-- Witness for C5: the boundary moves on a 4-cell tape and the abort
behaviour of a concrete failing head instruction. -/
theorem move_bounds_and_abort_witness :
    (execute_instruction noInput 1 (.mk TOKEN_NEXT 1 none)
        { freshContext 4 with tape_index := (4 : Int) - 1 } =
      (.err (.tapeOverrun 4 4),
        { freshContext 4 with tape_index := (4 : Int) - 1 })) ∧
    (execute_instruction noInput 1 (.mk TOKEN_PREVIOUS 1 none)
        (freshContext 4) =
      (.err .tapeUnderrun, freshContext 4)) ∧
    brainfuck_execute noInput 2 [.mk TOKEN_PREVIOUS 1 none, .mk TOKEN_PLUS 9 none]
        (freshContext 4) =
      (.err .tapeUnderrun, freshContext 4) := by
  refine ⟨move_bounds_and_abort.2.2.1 4 (by decide),
    move_bounds_and_abort.2.2.2.1 4,
    move_bounds_and_abort.2.2.2.2.1 noInput 1 (.mk TOKEN_PREVIOUS 1 none)
      [.mk TOKEN_PLUS 9 none] (freshContext 4) (freshContext 4)
      .tapeUnderrun rfl ?_⟩
  exact move_bounds_and_abort.2.2.2.1 4

/-- C6: a `]` with no open loop aborts the parse with the unmatched-close
error carrying its position (`parse("]")`), end of input inside an open
loop aborts with the unmatched-open error (`parse("[")`) — in both cases an
error result is the whole output, so no partial tree is returned — and
reaching end of input outside a loop is success. -/
theorem parse_unmatched_brackets :
    (∀ fuel, parse_string (fuel + 1) [']'] =
      .error (.unexpectedLoopEnd 0)) ∧
    (∀ fuel, parse_string (fuel + 2) ['['] = .error .unmatchedLoopStart) ∧
    (∀ fuel code index il, parse_brainfuck (fuel + 1) code index index il =
      if il then .error .unmatchedLoopStart else .ok ([], index)) := by
  refine ⟨fun fuel => rfl, fun fuel => rfl, fun fuel code index il => ?_⟩
  rw [parse_brainfuck]
  simp

/-- Shared helper: the run-merging loop consumes exactly the remainder `tl`
of a maximal `a`/`b`-run (the following characters `s` starting with a
non-run character), folding the accumulator by +1 for the leader `c` and −1
otherwise, and stops at position `pre.length + tl.length`. -/
theorem mergeSigned_spec (a b c : Char) (tl : List Char) :
    ∀ (pre s code : List Char) (e k i : Nat) (diff : Int),
      code = pre ++ (tl ++ s) →
      i = pre.length →
      e = pre.length + tl.length + s.length →
      k = tl.length + s.length →
      (∀ x ∈ tl, x = a ∨ x = b) →
      ¬(s.headD ' ' = a ∨ s.headD ' ' = b) →
      mergeSigned code e a b c k i diff =
        (tl.foldl (fun d x => if x = c then d + 1 else d - 1) diff,
          pre.length + tl.length) := by
  induction tl with
  | nil =>
    intro pre s code e k i diff hcode hi he hk htl hs
    subst hcode hi he hk
    cases s with
    | nil => simp [mergeSigned]
    | cons y ys =>
      have hs' : ¬(y = a ∨ y = b) := by simpa using hs
      have hgd : (pre ++ ([] ++ y :: ys)).getD pre.length ' ' = y := by
        rw [List.nil_append, List.getD_append_right _ _ _ _ le_rfl,
          Nat.sub_self]
        rfl
      simp only [List.length_nil, List.length_cons, Nat.zero_add,
        List.foldl_nil]
      rw [mergeSigned, if_neg (by rw [hgd]; exact fun h => hs' h.2)]
      simp
  | cons x tl ih =>
    intro pre s code e k i diff hcode hi he hk htl hs
    subst hcode hi he hk
    have hgd : (pre ++ (x :: tl ++ s)).getD pre.length ' ' = x := by
      rw [List.cons_append, List.getD_append_right _ _ _ _ le_rfl,
        Nat.sub_self]
      rfl
    have hk2 : (x :: tl).length + s.length = (tl.length + s.length) + 1 := by
      simp [List.length_cons]
      omega
    rw [hk2, mergeSigned,
      if_pos ⟨by simp [List.length_cons]; omega,
        by rw [hgd]; exact htl x (List.mem_cons_self x tl)⟩, hgd]
    have hrec := ih (pre ++ [x]) s (pre ++ (x :: tl ++ s))
      (pre.length + (x :: tl).length + s.length) (tl.length + s.length)
      (pre.length + 1) (if x = c then diff + 1 else diff - 1)
      (by simp) (by simp) (by simp [List.length_cons]; omega) rfl
      (fun z hz => htl z (List.mem_cons_of_mem x hz)) hs
    rw [hrec, List.foldl_cons]
    have : pre.length + (x :: tl).length = (pre ++ [x]).length + tl.length := by
      simp [List.length_cons]
      omega
    rw [this]

/-- Shared helper: parsing from the head of a maximal `+`/`-` or `>`/`<`
run (leader `c`, rest of run `tl`, following characters `s` starting with a
non-run character) emits exactly one instruction tagged `c` with the signed
fold of the run as magnitude, and continues just past the run. -/
theorem parse_run (fuel : Nat) (il : Bool) (a b c : Char) (tl s : List Char)
    (hab : (a = TOKEN_PLUS ∧ b = TOKEN_MINUS) ∨
      (a = TOKEN_NEXT ∧ b = TOKEN_PREVIOUS))
    (hc : c = a ∨ c = b)
    (htl : ∀ x ∈ tl, x = a ∨ x = b)
    (hs : ¬(s.headD ' ' = a ∨ s.headD ' ' = b)) :
    parse_brainfuck (fuel + 1) (c :: (tl ++ s)) 0 (c :: (tl ++ s)).length il =
      match parse_brainfuck fuel (c :: (tl ++ s)) (tl.length + 1)
          (c :: (tl ++ s)).length il with
      | .error m => .error m
      | .ok (rest, i) => .ok (.mk c (runFold c tl) none :: rest, i) := by
  have hm := mergeSigned_spec a b c tl [c] s (c :: (tl ++ s))
    (c :: (tl ++ s)).length ((c :: (tl ++ s)).length - (0 + 1)) (0 + 1) 1
    (by simp)
    (by simp)
    (by simp only [List.length_cons, List.length_append, List.length_nil]
        omega)
    (by simp only [List.length_cons, List.length_append, List.length_nil]
        omega)
    htl hs
  obtain ⟨ha, hb⟩ | ⟨ha, hb⟩ := hab <;> subst ha hb <;>
    rcases hc with hc | hc <;> subst hc <;>
  · rw [parse_brainfuck]
    simp only [TOKEN_PLUS, TOKEN_MINUS, TOKEN_NEXT, TOKEN_PREVIOUS,
      TOKEN_OUTPUT, TOKEN_INPUT, TOKEN_LOOP_START, TOKEN_LOOP_END,
      TOKEN_BREAK, List.getD_cons_zero, List.length_cons] at hm ⊢
    rw [if_pos (Nat.succ_pos _)]
    norm_num
    simp only [List.length_append, List.length_nil, List.length_cons,
      Nat.add_sub_cancel, Nat.zero_add] at hm
    rw [hm, runFold]
    simp [Nat.add_comm]

/-- C2: a maximal contiguous `+`/`-` run is parsed as exactly one
instruction tagged by the run's leading symbol, with magnitude the signed
fold starting at 1 (+1 for the leading symbol, −1 for the opposite one);
`"+++"` gives one `IncrementCell(3)`, `"+-+"` one `IncrementCell(1)`, and
the zero-net run `"+-"` is kept as one magnitude-0 instruction rather than
omitted. -/
theorem plus_minus_run_merging (fuel : Nat) (il : Bool) (c : Char)
    (tl s : List Char) (hc : c = TOKEN_PLUS ∨ c = TOKEN_MINUS)
    (htl : ∀ x ∈ tl, x = TOKEN_PLUS ∨ x = TOKEN_MINUS)
    (hs : ¬(s.headD ' ' = TOKEN_PLUS ∨ s.headD ' ' = TOKEN_MINUS)) :
    (parse_brainfuck (fuel + 1) (c :: (tl ++ s)) 0
        (c :: (tl ++ s)).length il =
      match parse_brainfuck fuel (c :: (tl ++ s)) (tl.length + 1)
          (c :: (tl ++ s)).length il with
      | .error m => .error m
      | .ok (rest, i) => .ok (.mk c (runFold c tl) none :: rest, i)) ∧
    parse_string 8 ['+', '+', '+'] = .ok [.mk TOKEN_PLUS 3 none] ∧
    parse_string 8 ['+', '-', '+'] = .ok [.mk TOKEN_PLUS 1 none] ∧
    parse_string 8 ['+', '-'] = .ok [.mk TOKEN_PLUS 0 none] :=
  ⟨parse_run fuel il TOKEN_PLUS TOKEN_MINUS c tl s (Or.inl ⟨rfl, rfl⟩)
    hc htl hs, rfl, rfl, rfl⟩

/-- Witness for C2 on the run `"+-+"` followed by a skipped character. -/
theorem plus_minus_run_merging_witness :
    (parse_brainfuck 5 ('+' :: (['-', '+'] ++ ['a'])) 0
        ('+' :: (['-', '+'] ++ ['a'])).length false =
      match parse_brainfuck 4 ('+' :: (['-', '+'] ++ ['a'])) (2 + 1)
          ('+' :: (['-', '+'] ++ ['a'])).length false with
      | .error m => .error m
      | .ok (rest, i) =>
        .ok (.mk '+' (runFold '+' ['-', '+']) none :: rest, i)) ∧
    parse_string 8 ['+', '+', '+'] = .ok [.mk TOKEN_PLUS 3 none] ∧
    parse_string 8 ['+', '-', '+'] = .ok [.mk TOKEN_PLUS 1 none] ∧
    parse_string 8 ['+', '-'] = .ok [.mk TOKEN_PLUS 0 none] :=
  plus_minus_run_merging 4 false '+' ['-', '+'] ['a'] (Or.inl rfl)
    (by decide) (by decide)

/-- C1 is false on the code at the input `"><<"`: that maximal `>`/`<` run
has net signed displacement −1, so the claim demands a single `MoveLeft`
(`<`-tagged) instruction of magnitude 1, but the parser emits a `>`-tagged
instruction of magnitude −1 — which also violates the claimed consequence
that every `>` instruction carries magnitude ≥ 1; likewise the net-zero run
`"><"` still emits an instruction instead of none. -/
theorem move_run_counterexample :
    parse_string 8 ['>', '<', '<'] = .ok [.mk TOKEN_NEXT (-1) none] ∧
    TOKEN_NEXT ≠ TOKEN_PREVIOUS ∧
    ¬((1 : Int) ≤ -1) ∧
    parse_string 8 ['>', '<'] = .ok [.mk TOKEN_NEXT 0 none] :=
  ⟨rfl, by decide, by decide, rfl⟩

/-- C1 (amended): a maximal `>`/`<` run is parsed as exactly one
instruction tagged by the run's LEADING symbol — not by the sign of the net
displacement — with magnitude the signed fold starting at 1 (+1 for the
leading symbol, −1 for the opposite one); this magnitude may be zero or
negative, and zero-net runs are kept rather than omitted, so parsed
`>`/`<` instructions do not always carry magnitude ≥ 1. -/
theorem move_run_merging (fuel : Nat) (il : Bool) (c : Char)
    (tl s : List Char) (hc : c = TOKEN_NEXT ∨ c = TOKEN_PREVIOUS)
    (htl : ∀ x ∈ tl, x = TOKEN_NEXT ∨ x = TOKEN_PREVIOUS)
    (hs : ¬(s.headD ' ' = TOKEN_NEXT ∨ s.headD ' ' = TOKEN_PREVIOUS)) :
    (parse_brainfuck (fuel + 1) (c :: (tl ++ s)) 0
        (c :: (tl ++ s)).length il =
      match parse_brainfuck fuel (c :: (tl ++ s)) (tl.length + 1)
          (c :: (tl ++ s)).length il with
      | .error m => .error m
      | .ok (rest, i) => .ok (.mk c (runFold c tl) none :: rest, i)) ∧
    parse_string 8 ['>', '<', '>'] = .ok [.mk TOKEN_NEXT 1 none] ∧
    parse_string 8 ['>', '<', '<'] = .ok [.mk TOKEN_NEXT (-1) none] ∧
    parse_string 8 ['<', '>', '>'] = .ok [.mk TOKEN_PREVIOUS (-1) none] :=
  ⟨parse_run fuel il TOKEN_NEXT TOKEN_PREVIOUS c tl s (Or.inr ⟨rfl, rfl⟩)
    hc htl hs, rfl, rfl, rfl⟩

/-- Witness for C1 (amended) on the run `"><<"`. -/
theorem move_run_merging_witness :
    (parse_brainfuck 5 ('>' :: (['<', '<'] ++ [])) 0
        ('>' :: (['<', '<'] ++ [])).length false =
      match parse_brainfuck 4 ('>' :: (['<', '<'] ++ [])) (2 + 1)
          ('>' :: (['<', '<'] ++ [])).length false with
      | .error m => .error m
      | .ok (rest, i) =>
        .ok (.mk '>' (runFold '>' ['<', '<']) none :: rest, i)) ∧
    parse_string 8 ['>', '<', '>'] = .ok [.mk TOKEN_NEXT 1 none] ∧
    parse_string 8 ['>', '<', '<'] = .ok [.mk TOKEN_NEXT (-1) none] ∧
    parse_string 8 ['<', '>', '>'] = .ok [.mk TOKEN_PREVIOUS (-1) none] :=
  move_run_merging 4 false '>' ['<', '<'] [] (Or.inl rfl)
    (by decide) (by decide)

/-- Unfolding for every remaining token (`#` only prints at source lines
238-246 and an unknown token falls into `pass`): the context is returned
unchanged. -/
theorem exec_other_unfold (inputH : Nat → Option Char) (fuel : Nat)
    (t : Char) (d : Int) (lp : Option (List BrainfuckInstruction))
    (ctx : BrainfuckExecutionContext)
    (h1 : t ≠ TOKEN_PLUS) (h2 : t ≠ TOKEN_MINUS) (h3 : t ≠ TOKEN_NEXT)
    (h4 : t ≠ TOKEN_PREVIOUS) (h5 : t ≠ TOKEN_OUTPUT) (h6 : t ≠ TOKEN_INPUT)
    (h7 : t ≠ TOKEN_LOOP_START) :
    execute_instruction inputH (fuel + 1) (.mk t d lp) ctx = (.ok, ctx) := by
  rw [execute_instruction]
  simp only [BrainfuckInstruction.token, BrainfuckInstruction.difference,
    if_neg h1, if_neg h2, if_neg h3, if_neg h4, if_neg h5, if_neg h6,
    if_neg h7]

/-- Loop branch with a non-zero current cell: run the body once and
re-test. -/
theorem exec_loop_unfold_pos (inputH : Nat → Option Char) (fuel : Nat)
    (d : Int) (lp : Option (List BrainfuckInstruction))
    (ctx : BrainfuckExecutionContext) (v : Nat)
    (hg : tapeGet ctx = some v) (hv : v ≠ 0) :
    execute_instruction inputH (fuel + 1) (.mk TOKEN_LOOP_START d lp) ctx =
      match brainfuck_execute inputH fuel (lp.getD []) ctx with
      | (.ok, ctx1) =>
        execute_instruction inputH fuel (.mk TOKEN_LOOP_START d lp) ctx1
      | other => other := by
  rw [exec_loop_unfold, hg]
  exact if_pos hv

/-- Loop branch with a zero current cell: skip. -/
theorem exec_loop_unfold_zero (inputH : Nat → Option Char) (fuel : Nat)
    (d : Int) (lp : Option (List BrainfuckInstruction))
    (ctx : BrainfuckExecutionContext) (v : Nat)
    (hg : tapeGet ctx = some v) (hv : v = 0) :
    execute_instruction inputH (fuel + 1) (.mk TOKEN_LOOP_START d lp) ctx =
      (.ok, ctx) := by
  rw [exec_loop_unfold, hg]
  exact if_neg (by simp [hv])

/-- Every value Python's `% 256` can store is a byte. -/
theorem emod256_toNat_le (x : Int) : (x % 256).toNat ≤ 255 := by omega

/-- `tapeModify` with a byte-valued function keeps the tape byte-bounded. -/
theorem tapeModify_bounded (ctx ctx1 : BrainfuckExecutionContext)
    (f : Nat → Nat) (hf : ∀ v, f v ≤ 255) (hctx : tapeBounded ctx)
    (h : tapeModify ctx f = some ctx1) : tapeBounded ctx1 := by
  unfold tapeModify at h
  cases hp : pyIdx ctx.tape.length ctx.tape_index with
  | none => rw [hp] at h; exact absurd h (by simp)
  | some k =>
    rw [hp] at h
    simp only [Option.some.injEq] at h
    subst h
    intro w hw
    rcases List.mem_or_eq_of_mem_set hw with hw | hw
    · exact hctx w hw
    · exact hw ▸ hf _

/-- `tapeSetAt` with a byte value keeps the tape byte-bounded. -/
theorem tapeSetAt_bounded (ctx ctx1 : BrainfuckExecutionContext) (v : Nat)
    (hv : v ≤ 255) (hctx : tapeBounded ctx)
    (h : tapeSetAt ctx v = some ctx1) : tapeBounded ctx1 := by
  unfold tapeSetAt at h
  cases hp : pyIdx ctx.tape.length ctx.tape_index with
  | none => rw [hp] at h; exact absurd h (by simp)
  | some k =>
    rw [hp] at h
    simp only [Option.some.injEq] at h
    subst h
    intro w hw
    rcases List.mem_or_eq_of_mem_set hw with hw | hw
    · exact hctx w hw
    · exact hw ▸ hv

/-- The output loop never touches the tape. -/
theorem runOutput_some_tape :
    ∀ (k : Nat) (ctx ctx1 : BrainfuckExecutionContext),
      runOutput k ctx = some ctx1 → ctx1.tape = ctx.tape := by
  intro k
  induction k with
  | zero =>
    intro ctx ctx1 h
    simp only [runOutput, Option.some.injEq] at h
    rw [← h]
  | succ n ih =>
    intro ctx ctx1 h
    unfold runOutput at h
    split at h
    · cases h
    · have h2 := ih _ _ h
      exact h2

/-- The input loop stores only bytes when the handler yields only
byte-range characters, so it keeps the tape byte-bounded. -/
theorem runInput_bounded (inputH : Nat → Option Char)
    (hin : ∀ n ch, inputH n = some ch → ch.toNat ≤ 255) :
    ∀ (k : Nat) (ctx ctx1 : BrainfuckExecutionContext),
      tapeBounded ctx → runInput inputH k ctx = some ctx1 →
      tapeBounded ctx1 := by
  intro k
  induction k with
  | zero =>
    intro ctx ctx1 hctx h
    simp only [runInput, Option.some.injEq] at h
    rw [← h]
    exact hctx
  | succ n ih =>
    intro ctx ctx1 hctx h
    unfold runInput at h
    split at h
    · cases h
    · rename_i c2 hset
      refine ih c2 ctx1 ?_ h
      refine tapeSetAt_bounded
        { ctx with inputCalls := ctx.inputCalls + 1 } c2 _ ?_ hctx hset
      cases hch : inputH ctx.inputCalls with
      | none => simp
      | some ch => simpa using hin _ _ hch

/-- Core invariant: with a byte-range input handler, one engine step (any
outcome, error and timeout included) keeps every tape cell ≤ 255. -/
theorem exec_tape_bounded (inputH : Nat → Option Char)
    (hin : ∀ n ch, inputH n = some ch → ch.toNat ≤ 255) :
    ∀ fuel,
      (∀ instr ctx, tapeBounded ctx →
        tapeBounded (execute_instruction inputH fuel instr ctx).2) ∧
      (∀ l ctx, tapeBounded ctx →
        tapeBounded (brainfuck_execute inputH fuel l ctx).2) := by
  intro fuel
  induction fuel with
  | zero =>
    constructor
    · intro instr ctx h
      exact h
    · intro l ctx h
      cases l with
      | nil => exact h
      | cons i rest =>
        by_cases hstop : ctx.should_stop = true <;>
          simp [brainfuck_execute, hstop] <;> exact h
  | succ f ih =>
    obtain ⟨ihI, ihL⟩ := ih
    constructor
    · intro instr ctx hctx
      obtain ⟨t, d, lp⟩ := instr
      by_cases h1 : t = TOKEN_PLUS
      · subst h1
        rw [exec_plus_unfold]
        cases hm : tapeModify ctx (fun v => (((v : Int) + d) % 256).toNat) with
        | none => exact hctx
        | some c1 =>
          exact tapeModify_bounded ctx c1 _ (fun v => emod256_toNat_le _)
            hctx hm
      by_cases h2 : t = TOKEN_MINUS
      · subst h2
        rw [exec_minus_unfold]
        cases hm : tapeModify ctx (fun v => (((v : Int) - d) % 256).toNat) with
        | none => exact hctx
        | some c1 =>
          exact tapeModify_bounded ctx c1 _ (fun v => emod256_toNat_le _)
            hctx hm
      by_cases h3 : t = TOKEN_NEXT
      · subst h3
        rw [exec_next_unfold]
        by_cases hb : ctx.tape_index + d ≥ (ctx.tape_size : Int) <;>
          simp [hb] <;> exact hctx
      by_cases h4 : t = TOKEN_PREVIOUS
      · subst h4
        rw [exec_prev_unfold]
        by_cases hb : ctx.tape_index - d < 0 <;>
          simp [hb] <;> exact hctx
      by_cases h5 : t = TOKEN_OUTPUT
      · subst h5
        rw [exec_output_unfold]
        cases hm : runOutput d.toNat ctx with
        | none => exact hctx
        | some c1 =>
          intro w hw
          exact hctx w (runOutput_some_tape _ _ _ hm ▸ hw)
      by_cases h6 : t = TOKEN_INPUT
      · subst h6
        rw [exec_input_unfold]
        cases hm : runInput inputH d.toNat ctx with
        | none => exact hctx
        | some c1 => exact runInput_bounded inputH hin _ _ _ hctx hm
      by_cases h7 : t = TOKEN_LOOP_START
      · subst h7
        cases hg : tapeGet ctx with
        | none =>
          rw [exec_loop_unfold, hg]
          exact hctx
        | some v =>
          by_cases hv : v ≠ 0
          · rw [exec_loop_unfold_pos inputH f d lp ctx v hg hv]
            have hbody := ihL (lp.getD []) ctx hctx
            cases hb : brainfuck_execute inputH f (lp.getD []) ctx with
            | mk o c1 =>
              rw [hb] at hbody
              cases o with
              | ok => exact ihI _ c1 hbody
              | err er => exact hbody
              | timeout => exact hbody
          · rw [exec_loop_unfold_zero inputH f d lp ctx v hg
              (by simpa using hv)]
            exact hctx
      rw [exec_other_unfold inputH f t d lp ctx h1 h2 h3 h4 h5 h6 h7]
      exact hctx
    · intro l ctx hctx
      cases l with
      | nil => exact hctx
      | cons i rest =>
        rw [brainfuck_execute_cons]
        by_cases hstop : ctx.should_stop = true
        · simp only [hstop, if_pos]
          exact hctx
        · simp only [hstop, if_neg, Bool.false_eq_true, not_false_eq_true,
            ite_false]
          have hstep := ihI i ctx hctx
          cases he : execute_instruction inputH f i ctx with
          | mk o c1 =>
            rw [he] at hstep
            cases o with
            | ok => exact ihL rest c1 hstep
            | err er => exact hstep
            | timeout => exact hstep

/-- C3 is false for arbitrary handlers: the `,` branch stores the ordinal
of whatever character the input handler returns without any range check, so
a handler returning U+0100 (ordinal 256) makes a fresh 1-cell tape hold
256, which is outside [0, 255]. -/
theorem input_overflow_counterexample :
    (brainfuck_execute (fun _ => some (Char.ofNat 256)) 2
      [.mk TOKEN_INPUT 1 none] (freshContext 1)).2.tape = [256] ∧
    ¬((256 : Nat) ≤ 255) := ⟨rfl, by decide⟩

/-- C3 (amended): starting from a fresh context, execution with any output
handler and any input handler that yields only byte-range characters
(ordinal ≤ 255, the contract the specification states for input handlers)
keeps every tape cell an integer in [0, 255]: `+`/`-` preserve the range by
mod-256 arithmetic and `,` stores 0 on end of stream or the handler
character's ordinal, which the hypothesis bounds; without that hypothesis
the invariant fails (see the counterexample). -/
theorem fresh_execution_tape_bounded (inputH : Nat → Option Char)
    (hin : ∀ n ch, inputH n = some ch → ch.toNat ≤ 255)
    (fuel : Nat) (instrs : List BrainfuckInstruction) (n : Nat) :
    ∀ v ∈ (brainfuck_execute inputH fuel instrs (freshContext n)).2.tape,
      0 ≤ v ∧ v ≤ 255 := by
  intro v hv
  refine ⟨Nat.zero_le v, ?_⟩
  refine (exec_tape_bounded inputH hin fuel).2 instrs (freshContext n)
    ?_ v hv
  intro w hw
  have := List.eq_of_mem_replicate hw
  omega

/-- Witness for C3 (amended): cell 0 after running `IncrementCell(300)` on
a fresh 1-cell tape (the cell holds 300 mod 256 = 44) is in range. -/
theorem fresh_execution_tape_bounded_witness :
    0 ≤ (brainfuck_execute noInput 3 [.mk TOKEN_PLUS 300 none]
        (freshContext 1)).2.tape.getD 0 0 ∧
      (brainfuck_execute noInput 3 [.mk TOKEN_PLUS 300 none]
        (freshContext 1)).2.tape.getD 0 0 ≤ 255 :=
  fresh_execution_tape_bounded noInput
    (fun n ch h => by simp [noInput] at h) 3 [.mk TOKEN_PLUS 300 none] 1
    ((brainfuck_execute noInput 3 [.mk TOKEN_PLUS 300 none]
      (freshContext 1)).2.tape.getD 0 0) (by decide)

/-- A plain non-negative index below the length resolves to itself. -/
theorem pyIdx_zero (n : Nat) (h : 0 < n) : pyIdx n 0 = some 0 := by
  unfold pyIdx
  rw [if_pos ⟨le_refl 0, by exact_mod_cast h⟩]
  rfl

/-- Index 1 resolves to itself on a tape of length at least 2. -/
theorem pyIdx_one (n : Nat) (h : 1 < n) : pyIdx n 1 = some 1 := by
  unfold pyIdx
  rw [if_pos ⟨by norm_num, by exact_mod_cast h⟩]
  rfl

/-- Reading cell 0 of a tape with at least two cells. -/
theorem tapeGet_at_zero (a b : Nat) (t : List Nat) (sz : Nat) (st : Bool)
    (ic : Nat) (out : List Nat) :
    tapeGet { tape := a :: b :: t, tape_index := 0, tape_size := sz,
              should_stop := st, inputCalls := ic, outputs := out } =
      some a := by
  unfold tapeGet
  rw [pyIdx_zero _ (by simp)]
  rfl

/-- Read-modify-write at cell 0 of a tape with at least two cells. -/
theorem tapeModify_at_zero (f : Nat → Nat) (a b : Nat) (t : List Nat)
    (sz : Nat) (st : Bool) (ic : Nat) (out : List Nat) :
    tapeModify { tape := a :: b :: t, tape_index := 0, tape_size := sz,
                 should_stop := st, inputCalls := ic, outputs := out } f =
      some { tape := f a :: b :: t, tape_index := 0, tape_size := sz,
             should_stop := st, inputCalls := ic, outputs := out } := by
  unfold tapeModify
  rw [pyIdx_zero _ (by simp)]
  rfl

/-- Read-modify-write at cell 1 of a tape with at least two cells. -/
theorem tapeModify_at_one (f : Nat → Nat) (a b : Nat) (t : List Nat)
    (sz : Nat) (st : Bool) (ic : Nat) (out : List Nat) :
    tapeModify { tape := a :: b :: t, tape_index := 1, tape_size := sz,
                 should_stop := st, inputCalls := ic, outputs := out } f =
      some { tape := a :: f b :: t, tape_index := 1, tape_size := sz,
             should_stop := st, inputCalls := ic, outputs := out } := by
  unfold tapeModify
  rw [pyIdx_one _ (by simp)]
  rfl

/-- Walking step of a non-stopped context. -/
theorem brainfuck_execute_cons_go (inputH : Nat → Option Char) (fuel : Nat)
    (instr : BrainfuckInstruction) (rest : List BrainfuckInstruction)
    (ctx : BrainfuckExecutionContext) (h : ctx.should_stop = false) :
    brainfuck_execute inputH (fuel + 1) (instr :: rest) ctx =
      match execute_instruction inputH fuel instr ctx with
      | (.ok, ctx1) => brainfuck_execute inputH fuel rest ctx1
      | other => other := by
  rw [brainfuck_execute_cons, h]
  rfl

/-- `IncrementCell(1)` at pointer 0 of a two-plus-cell tape. -/
theorem exec_plus_one_at_zero (inputH : Nat → Option Char) (g : Nat)
    (a b : Nat) (t : List Nat) (sz : Nat) (st : Bool) (ic : Nat)
    (out : List Nat) :
    execute_instruction inputH (g + 1) (.mk TOKEN_PLUS 1 none)
      { tape := a :: b :: t, tape_index := 0, tape_size := sz,
        should_stop := st, inputCalls := ic, outputs := out } =
    (.ok, { tape := (((a : Int) + 1) % 256).toNat :: b :: t,
            tape_index := 0, tape_size := sz, should_stop := st,
            inputCalls := ic, outputs := out }) := by
  rw [exec_plus_unfold, tapeModify_at_zero]

/-- `IncrementCell(1)` at pointer 1 of a two-plus-cell tape. -/
theorem exec_plus_one_at_one (inputH : Nat → Option Char) (g : Nat)
    (a b : Nat) (t : List Nat) (sz : Nat) (st : Bool) (ic : Nat)
    (out : List Nat) :
    execute_instruction inputH (g + 1) (.mk TOKEN_PLUS 1 none)
      { tape := a :: b :: t, tape_index := 1, tape_size := sz,
        should_stop := st, inputCalls := ic, outputs := out } =
    (.ok, { tape := a :: (((b : Int) + 1) % 256).toNat :: t,
            tape_index := 1, tape_size := sz, should_stop := st,
            inputCalls := ic, outputs := out }) := by
  rw [exec_plus_unfold, tapeModify_at_one]

/-- `DecrementCell(1)` at pointer 0 of a two-plus-cell tape. -/
theorem exec_minus_one_at_zero (inputH : Nat → Option Char) (g : Nat)
    (a b : Nat) (t : List Nat) (sz : Nat) (st : Bool) (ic : Nat)
    (out : List Nat) :
    execute_instruction inputH (g + 1) (.mk TOKEN_MINUS 1 none)
      { tape := a :: b :: t, tape_index := 0, tape_size := sz,
        should_stop := st, inputCalls := ic, outputs := out } =
    (.ok, { tape := (((a : Int) - 1) % 256).toNat :: b :: t,
            tape_index := 0, tape_size := sz, should_stop := st,
            inputCalls := ic, outputs := out }) := by
  rw [exec_minus_unfold, tapeModify_at_zero]

/-- `MoveRight(1)` from pointer 0 succeeds when the configured size is at
least 2. -/
theorem exec_next_one_at_zero (inputH : Nat → Option Char) (g : Nat)
    (tp : List Nat) (sz : Nat) (hsz : 2 ≤ sz) (st : Bool) (ic : Nat)
    (out : List Nat) :
    execute_instruction inputH (g + 1) (.mk TOKEN_NEXT 1 none)
      { tape := tp, tape_index := 0, tape_size := sz,
        should_stop := st, inputCalls := ic, outputs := out } =
    (.ok, { tape := tp, tape_index := 1, tape_size := sz,
            should_stop := st, inputCalls := ic, outputs := out }) := by
  rw [exec_next_unfold]
  split
  next h => exfalso; simp at h; omega
  next h => rfl

/-- `MoveLeft(1)` from pointer 1 succeeds. -/
theorem exec_prev_one_at_one (inputH : Nat → Option Char) (g : Nat)
    (tp : List Nat) (sz : Nat) (st : Bool) (ic : Nat) (out : List Nat) :
    execute_instruction inputH (g + 1) (.mk TOKEN_PREVIOUS 1 none)
      { tape := tp, tape_index := 1, tape_size := sz,
        should_stop := st, inputCalls := ic, outputs := out } =
    (.ok, { tape := tp, tape_index := 0, tape_size := sz,
            should_stop := st, inputCalls := ic, outputs := out }) := by
  rw [exec_prev_unfold]
  split
  next h => exfalso; simp at h
  next h => rfl

/-- The body of `"+[>+<-]"`'s loop, run once from cell values (1, 0):
moves right, increments, moves back, decrements — ending at (0, 1). -/
theorem plus_loop_body_pass (inputH : Nat → Option Char) (g : Nat)
    (t : List Nat) :
    brainfuck_execute inputH (g + 6)
      [.mk TOKEN_NEXT 1 none, .mk TOKEN_PLUS 1 none,
        .mk TOKEN_PREVIOUS 1 none, .mk TOKEN_MINUS 1 none]
      { tape := 1 :: 0 :: t, tape_index := 0, tape_size := t.length + 2,
        should_stop := false, inputCalls := 0, outputs := [] } =
    (.ok, { tape := 0 :: 1 :: t, tape_index := 0,
            tape_size := t.length + 2, should_stop := false,
            inputCalls := 0, outputs := [] }) := by
  rw [show g + 6 = (g + 5) + 1 from rfl,
    brainfuck_execute_cons_go inputH (g + 5) _ _ _ rfl,
    show g + 5 = (g + 4) + 1 from rfl,
    exec_next_one_at_zero inputH (g + 4) _ _ (by omega)]
  show brainfuck_execute inputH (g + 4 + 1) _ _ = _
  rw [brainfuck_execute_cons_go inputH (g + 4) _ _ _ rfl,
    show g + 4 = (g + 3) + 1 from rfl,
    exec_plus_one_at_one inputH (g + 3)]
  show brainfuck_execute inputH (g + 3 + 1) _ _ = _
  rw [brainfuck_execute_cons_go inputH (g + 3) _ _ _ rfl,
    show g + 3 = (g + 2) + 1 from rfl,
    exec_prev_one_at_one inputH (g + 2)]
  show brainfuck_execute inputH (g + 2 + 1) _ _ = _
  rw [brainfuck_execute_cons_go inputH (g + 2) _ _ _ rfl,
    show g + 2 = (g + 1) + 1 from rfl,
    exec_minus_one_at_zero inputH (g + 1)]
  show brainfuck_execute inputH (g + 1 + 1) [] _ = _
  rw [brainfuck_execute_nil]
  rfl

/-- Full run of `"+[>+<-]"` on a fresh two-plus-cell tape: the single loop
pass drives cell 0 to 0, the re-test exits, and the run ends successfully
with cells (0, 1) and the pointer back at 0. -/
theorem plus_loop_aux (inputH : Nat → Option Char) (g : Nat)
    (t : List Nat) :
    brainfuck_execute inputH (g + 9) plusLoopProg
      { tape := 0 :: 0 :: t, tape_index := 0, tape_size := t.length + 2,
        should_stop := false, inputCalls := 0, outputs := [] } =
    (.ok, { tape := 0 :: 1 :: t, tape_index := 0,
            tape_size := t.length + 2, should_stop := false,
            inputCalls := 0, outputs := [] }) := by
  rw [show g + 9 = (g + 8) + 1 from rfl, plusLoopProg,
    brainfuck_execute_cons_go inputH (g + 8) _ _ _ rfl,
    show g + 8 = (g + 7) + 1 from rfl,
    exec_plus_one_at_zero inputH (g + 7)]
  norm_num
  show brainfuck_execute inputH (g + 7 + 1) _ _ = _
  rw [brainfuck_execute_cons_go inputH (g + 7) _ _ _ rfl,
    show g + 7 = (g + 6) + 1 from rfl,
    exec_loop_unfold_pos inputH (g + 6) 1 _ _ 1 (tapeGet_at_zero ..)
      (by decide)]
  simp only [Option.getD_some]
  rw [plus_loop_body_pass inputH g t]
  show (match execute_instruction inputH (g + 6)
      (.mk TOKEN_LOOP_START 1
        (some [BrainfuckInstruction.mk TOKEN_NEXT 1 none,
          .mk TOKEN_PLUS 1 none, .mk TOKEN_PREVIOUS 1 none,
          .mk TOKEN_MINUS 1 none]))
      { tape := 0 :: 1 :: t, tape_index := 0, tape_size := t.length + 2,
        should_stop := false, inputCalls := 0, outputs := [] } with
    | (Outcome.ok, c1) => brainfuck_execute inputH (g + 6 + 1) [] c1
    | other => other) = _
  rw [show g + 6 = (g + 5) + 1 from rfl,
    exec_loop_unfold_zero inputH (g + 5) 1 _ _ 0 (tapeGet_at_zero ..) rfl]
  show brainfuck_execute inputH ((g + 5) + 1 + 1) [] _ = _
  rw [brainfuck_execute_nil]

/-- C8: `"+[>+<-]"` parses to `plusLoopProg`, and executing it on a fresh
context of any tape size ≥ 2 terminates successfully (fuel 20 suffices, so
the engine does not loop forever) with cell 0 = 0, cell 1 = 1 and the
pointer back at 0; the final conjunct is the loop semantics itself:
`LoopStart(body)` with a non-zero current cell runs the body once against
the same context and then re-tests the cell by re-dispatching on the same
instruction. -/
theorem plus_loop_program_terminates (inputH : Nat → Option Char) (N : Nat)
    (hN : 2 ≤ N) :
    parse_string 16 "+[>+<-]".toList = .ok plusLoopProg ∧
    brainfuck_execute inputH 20 plusLoopProg (freshContext N) =
      (.ok, { tape := 0 :: 1 :: List.replicate (N - 2) 0, tape_index := 0,
              tape_size := N, should_stop := false, inputCalls := 0,
              outputs := [] }) ∧
    (brainfuck_execute inputH 20 plusLoopProg
      (freshContext N)).2.tape.getD 0 0 = 0 ∧
    (brainfuck_execute inputH 20 plusLoopProg
      (freshContext N)).2.tape.getD 1 0 = 1 ∧
    (brainfuck_execute inputH 20 plusLoopProg
      (freshContext N)).2.tape_index = 0 ∧
    (∀ (fuel : Nat) (d : Int) (lp : Option (List BrainfuckInstruction))
        (ctx : BrainfuckExecutionContext) (v : Nat),
      tapeGet ctx = some v → v ≠ 0 →
      execute_instruction inputH (fuel + 1)
          (.mk TOKEN_LOOP_START d lp) ctx =
        match brainfuck_execute inputH fuel (lp.getD []) ctx with
        | (.ok, ctx1) =>
          execute_instruction inputH fuel (.mk TOKEN_LOOP_START d lp) ctx1
        | other => other) := by
  obtain ⟨k, rfl⟩ : ∃ k, N = k + 2 := ⟨N - 2, by omega⟩
  have hlen : (List.replicate k 0).length = k := List.length_replicate ..
  have hfresh : freshContext (k + 2) =
      { tape := 0 :: 0 :: List.replicate k 0, tape_index := 0,
        tape_size := (List.replicate k 0).length + 2, should_stop := false,
        inputCalls := 0, outputs := [] } := by
    simp [freshContext, List.replicate_succ]
  have hmain : brainfuck_execute inputH 20 plusLoopProg
      (freshContext (k + 2)) =
      (.ok, { tape := 0 :: 1 :: List.replicate (k + 2 - 2) 0,
              tape_index := 0, tape_size := k + 2, should_stop := false,
              inputCalls := 0, outputs := [] }) := by
    rw [show (20 : Nat) = 11 + 9 from rfl, hfresh,
      plus_loop_aux inputH 11 (List.replicate k 0)]
    simp [hlen]
  refine ⟨rfl, hmain, ?_, ?_, ?_,
    fun fuel d lp ctx v hg hv =>
      exec_loop_unfold_pos inputH fuel d lp ctx v hg hv⟩
  · rw [hmain]
    rfl
  · rw [hmain]
    rfl
  · rw [hmain]

/-- Witness for C8 at the minimal tape size 2. -/
theorem plus_loop_program_terminates_witness :
    brainfuck_execute noInput 20 plusLoopProg (freshContext 2) =
      (.ok, { tape := 0 :: 1 :: List.replicate 0 0, tape_index := 0,
              tape_size := 2, should_stop := false, inputCalls := 0,
              outputs := [] }) :=
  (plus_loop_program_terminates noInput 2 (by decide)).2.1
